import Mathlib

/-
  Verification of the WSPR transmitter core (fl2k-tool, fl-wspr.c).

  The integer signal-synthesis core is embedded shallowly: all C unsigned
  64-bit arithmetic becomes Nat with explicit reduction modulo 2^64, the
  int16 output path becomes Int with an explicit 16-bit wrap, and the
  per-sample loop of tx_callback becomes a recursive function on an
  explicit loop state.  The floating-point conversions of the source
  (tx_hz_to_freq and the sine-table build, which go through C doubles and
  libm sin) are not recomputed here: their integer results (the frequency
  words, the symbol step and the sine table contents) enter the model as
  parameters, exactly as the integer core consumes them.
-/

namespace FlWspr

/-- 2^64, the modulus of all C uint64_t arithmetic in the source. -/
def U64 : Nat := 2 ^ 64

/-- SINE_SHIFT from fl-wspr.c. -/
def SINE_SHIFT : Nat := 10

/-- SINE_SIZE = 1 << SINE_SHIFT. -/
def SINE_SIZE : Nat := 2 ^ SINE_SHIFT

/-- WSPR_LEN from fl-wspr.c: the fixed WSPR frame length in symbols. -/
def WSPR_LEN : Nat := 162

/-- MAX_FREQS from fl-wspr.c. -/
def MAX_FREQS : Nat := 16

/-- FL2K_BUF_LEN, the fixed buffer length from the external osmo-fl2k
header (1280 * 1024 bytes per channel).  The development only uses that
it is one fixed constant; it is kept irreducible so that no proof ever
depends on (or tries to compute with) its numeric value. -/
@[irreducible] def FL2K_BUF_LEN : Nat := 1280 * 1024

/-- The LCG multiplier used for dithering in tx_callback. -/
def LCG_MULT : Nat := 6364136223846793005

/-- Wrap an integer to int16_t range, the effect of storing the dithered
sample back into the int16_t out variables in tx_callback. -/
def i16 (x : Int) : Int := (x + 32768) % 65536 - 32768

/-- Reading the sine table: tx->sine[i].  The table is modelled as a list
of Int (the int16_t entries); out-of-range reads default to 0 (they are
proved unreachable, see the bounds claims). -/
def sineVal (sine : List Int) (i : Nat) : Int := sine.getD i 0

/-- The sine-table index computation: (uint64_t)ph >> (64 - SINE_SHIFT). -/
def sineIdx (ph : Nat) : Nat := ph % U64 / 2 ^ (64 - SINE_SHIFT)

/-- Quantization to 8 bits: (uint16_t)(0x7F00 + out) >> 8.  The cast to
uint16_t reduces the int value modulo 2^16; the result is the emitted
output byte. -/
def quant (out : Int) : Nat := (((0x7F00 + out) % 65536).toNat) / 256

/-- The state the per-sample loop of tx_callback reads and writes:
oscillator phase and frequency word, LCG state, WSPR symbol phase
accumulator, WSPR symbol index (tx->wspr_i) and the wspr_on flag. -/
structure LoopSt where
  phase : Nat
  freq : Nat
  lcg : Nat
  symphase : Nat
  wspr_i : Nat
  wOn : Bool
  deriving DecidableEq

/-- One iteration of the per-sample loop of tx_callback (fl-wspr.c lines
151-194 of the current version).  Constant inputs: the sine table, the
symbol values (wspr_data entries with the ASCII digit zero subtracted), wspr_step, phs1, phs2 and
wspr_freq (the base frequency word of the running transmission).  Returns
the new loop state and the three output bytes written to the red, green
and blue channel buffers.

C detail kept faithfully: rnd is a uint32_t, so the phase-dither shift
rnd << (64-32-SINE_SHIFT) is a 32-bit shift whose result wraps modulo
2^32 before being added to the 64-bit phase. -/
def sampleStep (sine : List Int) (data : List Nat)
    (step phs1 phs2 base : Nat) (s : LoopSt) : LoopSt × (Nat × Nat × Nat) :=
  let lcg := (s.lcg * LCG_MULT + 1) % U64
  let rnd := lcg / 2 ^ 32
  if s.wOn then
    let phase := (s.phase + s.freq) % U64
    let ph := (phase + rnd * 2 ^ (64 - 32 - SINE_SHIFT) % 2 ^ 32) % U64
    let out0 := i16 (sineVal sine (sineIdx ph) + (rnd % 2 ^ 8 : Nat))
    let out1 := i16 (sineVal sine (sineIdx (ph + phs1)) + (rnd / 2 ^ 8 % 2 ^ 8 : Nat))
    let out2 := i16 (sineVal sine (sineIdx (ph + phs2)) + (rnd / 2 ^ 16 % 2 ^ 8 : Nat))
    let bytes := (quant out0, quant out1, quant out2)
    let sp := s.symphase
    let symphase := (sp + step) % U64
    if symphase < sp then
      let i2 := (s.wspr_i + 1) % 2 ^ 32
      if i2 < WSPR_LEN then
        ({ phase := phase, freq := (base + step * data.getD i2 0) % U64, lcg := lcg, symphase := symphase, wspr_i := i2, wOn := true }, bytes)
      else
        ({ phase := phase, freq := s.freq, lcg := lcg, symphase := symphase, wspr_i := i2, wOn := false }, bytes)
    else
      ({ phase := phase, freq := s.freq, lcg := lcg, symphase := symphase, wspr_i := s.wspr_i, wOn := true }, bytes)
  else
    ({ s with lcg := lcg }, (0x80, 0x80, 0x80))

/-- The per-sample loop run for n samples, collecting the emitted bytes
per sample (per channel). -/
def fillLoop (sine : List Int) (data : List Nat) (step phs1 phs2 base : Nat) :
    Nat → LoopSt → LoopSt × List (Nat × Nat × Nat)
  | 0, s => (s, [])
  | n + 1, s =>
    let r := sampleStep sine data step phs1 phs2 base s
    let rest := fillLoop sine data step phs1 phs2 base n r.1
    (rest.1, r.2 :: rest.2)

/-- The loop state after n samples (just the state part of fillLoop,
defined by front recursion). -/
def stepN (sine : List Int) (data : List Nat) (step phs1 phs2 base : Nat) :
    Nat → LoopSt → LoopSt
  | 0, s => s
  | n + 1, s => stepN sine data step phs1 phs2 base n
      (sampleStep sine data step phs1 phs2 base s).1

/-- Number of symbol-phase wrap events (the symphase-decreased condition
of the source) observed in the first n samples, counted from the back so
that induction on n matches appending one more sample. -/
def wrapCount (sine : List Int) (data : List Nat) (step phs1 phs2 base : Nat) :
    Nat → LoopSt → Nat
  | 0, _ => 0
  | n + 1, s =>
    let t := stepN sine data step phs1 phs2 base n s
    wrapCount sine data step phs1 phs2 base n s +
      (if (sampleStep sine data step phs1 phs2 base t).1.symphase < t.symphase
       then 1 else 0)

/-- The full transmitter state (struct transmitter of fl-wspr.c, current
version), minus the fields that are pure floating-point configuration.
wspr_nfreqs is wspr_freqs.length. -/
structure Transmitter where
  initialized : Bool
  wspr_on : Bool
  ps : Bool
  phase : Nat
  freq : Nat
  phs1 : Nat
  phs2 : Nat
  lcg : Nat
  wspr_symphase : Nat
  wspr_freqs : List Nat
  wspr_freq : Nat
  wspr_step : Nat
  wspr_i : Nat
  wspr_freq_i : Nat
  wspr_data : List Nat
  sine : List Int
  deriving DecidableEq

/-- The start-of-transmission block of tx_callback (executed when idle and
the scheduling condition holds): reset indices and phases, latch the band
frequency, advance the band index round-robin, set the oscillator
frequency word for symbol 0, and swap the two phase shifts when the ps
flag is set. -/
def startTx (tx : Transmitter) : Transmitter :=
  let base := tx.wspr_freqs.getD tx.wspr_freq_i 0
  { tx with
    wspr_i := 0
    wspr_symphase := 0
    phase := 0
    wspr_freq := base
    freq := (base + tx.wspr_step * tx.wspr_data.getD 0 0) % U64
    wspr_freq_i := (tx.wspr_freq_i + 1) % tx.wspr_freqs.length
    phs1 := if tx.ps then tx.phs2 else tx.phs1
    phs2 := if tx.ps then tx.phs1 else tx.phs2
    wspr_on := true }

/-- The scheduling check at the top of tx_callback: start a transmission
iff currently idle and the wall-clock unix seconds satisfy
(now mod 120) == 1. -/
def startCheck (now : Nat) (tx : Transmitter) : Transmitter :=
  if tx.wspr_on = false ∧ now % 120 = 1 then startTx tx else tx

/-- Project the per-loop state out of the transmitter. -/
def loopStOf (tx : Transmitter) : LoopSt :=
  { phase := tx.phase
    freq := tx.freq
    lcg := tx.lcg
    symphase := tx.wspr_symphase
    wspr_i := tx.wspr_i
    wOn := tx.wspr_on }

/-- Write the per-loop state back into the transmitter. -/
def writeBack (tx : Transmitter) (s : LoopSt) : Transmitter :=
  { tx with
    phase := s.phase
    freq := s.freq
    lcg := s.lcg
    wspr_symphase := s.symphase
    wspr_i := s.wspr_i
    wspr_on := s.wOn }

/-- tx_callback of the current fl-wspr.c: returns immediately (leaving
the channel buffers untouched, modelled as the none result) when the
transmitter is not initialized or when the requested length differs from
FL2K_BUF_LEN; otherwise performs the scheduling check, fills exactly
FL2K_BUF_LEN samples into each of the three channel buffers, and writes
back the advanced state. -/
def tx_callback (now len : Nat) (tx : Transmitter) :
    Transmitter × Option (List Nat × List Nat × List Nat) :=
  if tx.initialized = false then (tx, none)
  else if len ≠ FL2K_BUF_LEN then (tx, none)
  else
    let tx1 := startCheck now tx
    let r := fillLoop tx1.sine tx1.wspr_data tx1.wspr_step tx1.phs1 tx1.phs2
      tx1.wspr_freq FL2K_BUF_LEN (loopStOf tx1)
    (writeBack tx1 r.1,
     some (r.2.map (·.1), r.2.map (·.2.1), r.2.map (·.2.2)))

/-- A sequence of buffer-fill invocations, each with its wall-clock time
and requested length. -/
def runCalls : List (Nat × Nat) → Transmitter →
    Transmitter × List (Option (List Nat × List Nat × List Nat))
  | [], tx => (tx, [])
  | c :: rest, tx =>
    let r := tx_callback c.1 c.2 tx
    let rr := runCalls rest r.1
    (rr.1, r.2 :: rr.2)

/-- The zero-filled transmitter of main (struct transmitter tx1 with only
initialized set, all other members zero per C designated-initializer
semantics). -/
def tx0 : Transmitter :=
  { initialized := false
    wspr_on := false
    ps := false
    phase := 0
    freq := 0
    phs1 := 0
    phs2 := 0
    lcg := 0
    wspr_symphase := 0
    wspr_freqs := []
    wspr_freq := 0
    wspr_step := 0
    wspr_i := 0
    wspr_freq_i := 0
    wspr_data := []
    sine := [] }

/-- One command-line configuration parameter, as classified by the
argument loop.  The numeric payloads stand for the parsed values (the
doubles themselves are irrelevant to the configuration-validation logic
verified here; the symbol payload carries the decoded symbol values). -/
inductive Param where
  | pId (v : Nat)
  | pFs (v : Nat)
  | pPpm (v : Nat)
  | pP1 (v : Nat)
  | pP2 (v : Nat)
  | pPs (v : Nat)
  | pS (s : List Nat)
  | pF (v : Nat)
  deriving DecidableEq

/-- The configuration fields that the validation logic inspects. -/
structure Conf where
  fList : List Nat
  s : List Nat
  ps : Nat
  deriving DecidableEq

/-- The initial configuration conf1 of main (nf = 0, s = "", ps = 0). -/
def conf0 : Conf := { fList := [], s := [], ps := 0 }

/-- Effect of one parameter on the configuration, from the argument loop
of main: an f parameter is appended only while fewer than MAX_FREQS
frequencies are stored (extra ones are silently dropped); s and ps
overwrite; the other known parameters do not touch these fields. -/
def applyParam (c : Conf) : Param → Conf
  | .pF v => if c.fList.length < MAX_FREQS then { c with fList := c.fList ++ [v] } else c
  | .pS s => { c with s := s }
  | .pPs v => { c with ps := v }
  | _ => c

/-- The argument loop of main over a list of recognized parameters. -/
def parseConf (ps : List Param) : Conf := ps.foldl applyParam conf0

/-- The configuration validation of main, run once after parsing: fail when
the symbol sequence length differs from WSPR_LEN, then fail when the
frequency list is empty; otherwise accept. -/
def validateConf (c : Conf) : Option Conf :=
  if c.s.length ≠ WSPR_LEN then none
  else if c.fList.length = 0 then none
  else some c

/-- Parsing followed by validation: the configuration main hands to
tx_init, or none when main bails out before initializing. -/
def mainInit (ps : List Param) : Option Conf :=
  validateConf (parseConf ps)

/-- tx_init on the integer core: install the symbol data, the frequency
words (the per-entry double-to-u64 conversion tx_hz_to_freq is the
parameter conv), the symbol step, the phase shifts and the ps flag, clear
wspr_on and set initialized.  The sine table contents (built through libm
sin on doubles in the source) enter as the sine parameter. -/
def tx_init (c : Conf) (conv : Nat → Nat) (step : Nat) (sine : List Int)
    (p1 p2 : Nat) (tx : Transmitter) : Transmitter :=
  { tx with
    sine := sine
    wspr_on := false
    wspr_data := c.s
    wspr_step := step
    wspr_freqs := c.fList.map conv
    phs1 := p1
    phs2 := p2
    ps := c.ps == 1
    initialized := true }

/-- The initialization path of main: the transmitter is initialized from the
parsed configuration only when validation accepts; otherwise main jumps
to its failure exit and the transmitter stays the zero state (never
partially initialized). -/
def mainTx (ps : List Param) (conv : Nat → Nat) (step : Nat)
    (sine : List Int) (p1 p2 : Nat) : Transmitter :=
  match mainInit ps with
  | none => tx0
  | some c => tx_init c conv step sine p1 p2 tx0

/-- Checked variant of sampleStep: every list access of the loop body is
performed through a bounds-checked read that fails (none) out of range.
Proving it equal to some (sampleStep ...) on reachable states shows every
access of the per-sample loop is in bounds. -/
def sampleStepC (sine : List Int) (data : List Nat)
    (step phs1 phs2 base : Nat) (s : LoopSt) :
    Option (LoopSt × (Nat × Nat × Nat)) :=
  let lcg := (s.lcg * LCG_MULT + 1) % U64
  let rnd := lcg / 2 ^ 32
  if s.wOn then
    let phase := (s.phase + s.freq) % U64
    let ph := (phase + rnd * 2 ^ (64 - 32 - SINE_SHIFT) % 2 ^ 32) % U64
    do
    let e0 ← sine.get? (sineIdx ph)
    let e1 ← sine.get? (sineIdx (ph + phs1))
    let e2 ← sine.get? (sineIdx (ph + phs2))
    let out0 := i16 (e0 + (rnd % 2 ^ 8 : Nat))
    let out1 := i16 (e1 + (rnd / 2 ^ 8 % 2 ^ 8 : Nat))
    let out2 := i16 (e2 + (rnd / 2 ^ 16 % 2 ^ 8 : Nat))
    let bytes := (quant out0, quant out1, quant out2)
    let sp := s.symphase
    let symphase := (sp + step) % U64
    if symphase < sp then
      let i2 := (s.wspr_i + 1) % 2 ^ 32
      if i2 < WSPR_LEN then do
        let sv ← data.get? i2
        some ({ phase := phase, freq := (base + step * sv) % U64, lcg := lcg, symphase := symphase, wspr_i := i2, wOn := true }, bytes)
      else
        some ({ phase := phase, freq := s.freq, lcg := lcg, symphase := symphase, wspr_i := i2, wOn := false }, bytes)
    else
      some ({ phase := phase, freq := s.freq, lcg := lcg, symphase := symphase, wspr_i := s.wspr_i, wOn := true }, bytes)
  else
    some ({ s with lcg := lcg }, (0x80, 0x80, 0x80))

/-- Checked variant of startTx: the frequency-list read at the band index
and the symbol read at index 0 are bounds-checked. -/
def startTxC (tx : Transmitter) : Option Transmitter := do
  let base ← tx.wspr_freqs.get? tx.wspr_freq_i
  let s0 ← tx.wspr_data.get? 0
  some { tx with
    wspr_i := 0
    wspr_symphase := 0
    phase := 0
    wspr_freq := base
    freq := (base + tx.wspr_step * s0) % U64
    wspr_freq_i := (tx.wspr_freq_i + 1) % tx.wspr_freqs.length
    phs1 := if tx.ps then tx.phs2 else tx.phs1
    phs2 := if tx.ps then tx.phs1 else tx.phs2
    wspr_on := true }

/-! Helper lemmas. -/

theorem sineIdx_lt (ph : Nat) : sineIdx ph < SINE_SIZE := by
  have h1 : ph % U64 < U64 := Nat.mod_lt _ (by simp [U64])
  have h2 : ph % U64 / 2 ^ (64 - SINE_SHIFT) < SINE_SIZE := by
    rw [Nat.div_lt_iff_lt_mul (by norm_num [SINE_SHIFT])]
    calc ph % U64 < U64 := h1
    _ ≤ SINE_SIZE * 2 ^ (64 - SINE_SHIFT) := by norm_num [U64, SINE_SIZE, SINE_SHIFT]
  exact h2

theorem U64_val : U64 = 18446744073709551616 := by norm_num [U64]

theorem get?_eq_some_getD {α : Type} (l : List α) (d : α) (i : Nat)
    (h : i < l.length) : l.get? i = some (l.getD i d) := by
  simp [List.get?_eq_getElem?, List.getElem?_eq_getElem h, List.getD_eq_getElem?_getD]

theorem getD_mem_or_default {α : Type} (l : List α) (d : α) (i : Nat) :
    l.getD i d ∈ l ∨ l.getD i d = d := by
  by_cases h : i < l.length
  · left
    rw [List.getD_eq_getElem?_getD, List.getElem?_eq_getElem h]
    exact List.getElem_mem h
  · right
    rw [List.getD_eq_getElem?_getD, List.getElem?_eq_none (by omega)]
    rfl

/-- Wrap detection: for an accumulator below the modulus and a nonzero
step below the modulus, the after-sum is numerically smaller than the
before value precisely when the true sum overflows the modulus. -/
theorem wrap_iff (sp step : Nat) (h1 : sp < U64) (h3 : step < U64) :
    (sp + step) % U64 < sp ↔ U64 ≤ sp + step := by
  rw [U64_val] at h1 h3 ⊢
  omega

theorem stepN_succ_back (sine : List Int) (data : List Nat)
    (step phs1 phs2 base : Nat) (n : Nat) (s : LoopSt) :
    stepN sine data step phs1 phs2 base (n + 1) s =
      (sampleStep sine data step phs1 phs2 base
        (stepN sine data step phs1 phs2 base n s)).1 := by
  induction n generalizing s with
  | zero => rfl
  | succ m ih =>
    show stepN sine data step phs1 phs2 base (m + 1)
        (sampleStep sine data step phs1 phs2 base s).1 = _
    rw [ih]
    rfl

theorem sampleStep_idle (sine : List Int) (data : List Nat)
    (step phs1 phs2 base : Nat) (s : LoopSt) (h : s.wOn = false) :
    sampleStep sine data step phs1 phs2 base s =
      ({ s with lcg := (s.lcg * LCG_MULT + 1) % U64 }, (0x80, 0x80, 0x80)) := by
  simp [sampleStep, h]

theorem fillLoop_state (sine : List Int) (data : List Nat)
    (step phs1 phs2 base : Nat) (n : Nat) (s : LoopSt) :
    (fillLoop sine data step phs1 phs2 base n s).1 =
      stepN sine data step phs1 phs2 base n s := by
  induction n generalizing s with
  | zero => rfl
  | succ m ih => simp [fillLoop, stepN, ih]

theorem fillLoop_length (sine : List Int) (data : List Nat)
    (step phs1 phs2 base : Nat) (n : Nat) (s : LoopSt) :
    (fillLoop sine data step phs1 phs2 base n s).2.length = n := by
  induction n generalizing s with
  | zero => rfl
  | succ m ih => simp [fillLoop, ih]

theorem fillLoop_idle (sine : List Int) (data : List Nat)
    (step phs1 phs2 base : Nat) (n : Nat) (s : LoopSt) (h : s.wOn = false) :
    (fillLoop sine data step phs1 phs2 base n s).1.phase = s.phase ∧
    (fillLoop sine data step phs1 phs2 base n s).1.wOn = false ∧
    ∀ o ∈ (fillLoop sine data step phs1 phs2 base n s).2, o = (0x80, 0x80, 0x80) := by
  induction n generalizing s with
  | zero => simp [fillLoop, h]
  | succ m ih =>
    have hs := sampleStep_idle sine data step phs1 phs2 base s h
    have ih2 := ih { s with lcg := (s.lcg * LCG_MULT + 1) % U64 } (by simp [h])
    simp only [fillLoop, hs] at ih2 ⊢
    refine ⟨ih2.1, ih2.2.1, ?_⟩
    intro o ho
    simp at ho
    rcases ho with ho | ho
    · exact ho
    · exact ih2.2.2 o ho

theorem writeBack_wspr_on (tx : Transmitter) (s : LoopSt) :
    (writeBack tx s).wspr_on = s.wOn := rfl

theorem writeBack_phase (tx : Transmitter) (s : LoopSt) :
    (writeBack tx s).phase = s.phase := rfl

theorem writeBack_wspr_i (tx : Transmitter) (s : LoopSt) :
    (writeBack tx s).wspr_i = s.wspr_i := rfl

theorem writeBack_wspr_freq_i (tx : Transmitter) (s : LoopSt) :
    (writeBack tx s).wspr_freq_i = tx.wspr_freq_i := rfl

theorem writeBack_wspr_freqs (tx : Transmitter) (s : LoopSt) :
    (writeBack tx s).wspr_freqs = tx.wspr_freqs := rfl

theorem startTx_wspr_freqs (tx : Transmitter) :
    (startTx tx).wspr_freqs = tx.wspr_freqs := rfl

theorem startTx_wspr_freq_i (tx : Transmitter) :
    (startTx tx).wspr_freq_i = (tx.wspr_freq_i + 1) % tx.wspr_freqs.length := rfl

theorem startTx_wspr_on (tx : Transmitter) : (startTx tx).wspr_on = true := rfl

theorem startTx_wspr_i (tx : Transmitter) : (startTx tx).wspr_i = 0 := rfl

/-! Claim theorems. -/

/-- C3: for every sample processed while TRANSMITTING, the oscillator
phase advances by freq modulo 2^64 and the symbol phase advances by
symbol_step; a symbol boundary is detected exactly when the new
symbol-phase value is numerically less than the old one; on a boundary
the symbol index increments, and if the new index is still below 162 the
oscillator frequency becomes base_freq + symbol_step * symbol_value of
the new index, otherwise the transmitter returns to IDLE. -/
theorem c3_per_sample_transmit (sine : List Int) (data : List Nat)
    (step phs1 phs2 base : Nat) (s : LoopSt)
    (hon : s.wOn = true) (hi : s.wspr_i < WSPR_LEN) :
    (sampleStep sine data step phs1 phs2 base s).1.phase = (s.phase + s.freq) % U64 ∧
    (sampleStep sine data step phs1 phs2 base s).1.symphase = (s.symphase + step) % U64 ∧
    ((s.symphase + step) % U64 < s.symphase →
      (sampleStep sine data step phs1 phs2 base s).1.wspr_i = s.wspr_i + 1 ∧
      (s.wspr_i + 1 < WSPR_LEN →
        (sampleStep sine data step phs1 phs2 base s).1.wOn = true ∧
        (sampleStep sine data step phs1 phs2 base s).1.freq =
          (base + step * data.getD (s.wspr_i + 1) 0) % U64) ∧
      (¬ s.wspr_i + 1 < WSPR_LEN →
        (sampleStep sine data step phs1 phs2 base s).1.wOn = false ∧
        (sampleStep sine data step phs1 phs2 base s).1.freq = s.freq)) ∧
    (¬ (s.symphase + step) % U64 < s.symphase →
      (sampleStep sine data step phs1 phs2 base s).1.wspr_i = s.wspr_i ∧
      (sampleStep sine data step phs1 phs2 base s).1.wOn = true ∧
      (sampleStep sine data step phs1 phs2 base s).1.freq = s.freq) := by
  have hmod : (s.wspr_i + 1) % 4294967296 = s.wspr_i + 1 :=
    Nat.mod_eq_of_lt (by norm_num [WSPR_LEN] at hi; omega)
  by_cases hw : (s.symphase + step) % U64 < s.symphase
  · by_cases h2 : s.wspr_i + 1 < WSPR_LEN
    · simp [sampleStep, hon, hw, hmod, h2]
    · simp [sampleStep, hon, hw, hmod, h2]
  · simp [sampleStep, hon, hw]

/-- Closed witness for c3_per_sample_transmit at a concrete input. -/
theorem c3_per_sample_transmit_witness :
    (({ phase := 1, freq := 2, lcg := 3, symphase := 4, wspr_i := 0, wOn := true } : LoopSt).wOn = true) ∧
    (({ phase := 1, freq := 2, lcg := 3, symphase := 4, wspr_i := 0, wOn := true } : LoopSt).wspr_i < WSPR_LEN) ∧
    ((sampleStep [] [] 5 0 0 0 { phase := 1, freq := 2, lcg := 3, symphase := 4, wspr_i := 0, wOn := true }).1.phase = (1 + 2) % U64) :=
  ⟨rfl, by norm_num [WSPR_LEN],
   (c3_per_sample_transmit [] [] 5 0 0 0
     { phase := 1, freq := 2, lcg := 3, symphase := 4, wspr_i := 0, wOn := true }
     rfl (by norm_num [WSPR_LEN])).1⟩

/-- C2: a buffer-fill invocation made while idle starts a transmission
exactly when the wall-clock unix seconds satisfy (now mod 120) = 1; the
start resets symbol index, symbol phase and oscillator phase to 0,
latches base_freq from the frequency list at band_index, advances
band_index round-robin, and sets freq = base_freq + symbol_step *
symbol_value(0); otherwise the transmitter stays idle. -/
theorem c2_start_transition (now : Nat) (tx : Transmitter)
    (hidle : tx.wspr_on = false) :
    (now % 120 = 1 →
      startCheck now tx = startTx tx ∧
      (startTx tx).wspr_on = true ∧
      (startTx tx).wspr_i = 0 ∧
      (startTx tx).wspr_symphase = 0 ∧
      (startTx tx).phase = 0 ∧
      (startTx tx).wspr_freq = tx.wspr_freqs.getD tx.wspr_freq_i 0 ∧
      (startTx tx).wspr_freq_i = (tx.wspr_freq_i + 1) % tx.wspr_freqs.length ∧
      (startTx tx).freq =
        (tx.wspr_freqs.getD tx.wspr_freq_i 0 + tx.wspr_step * tx.wspr_data.getD 0 0) % U64) ∧
    (now % 120 ≠ 1 →
      startCheck now tx = tx ∧
      ∀ len, (tx_callback now len tx).1.wspr_on = false) := by
  constructor
  · intro h
    exact ⟨by simp [startCheck, hidle, h], rfl, rfl, rfl, rfl, rfl, rfl, rfl⟩
  · intro h
    have hsc : startCheck now tx = tx := by simp [startCheck, h]
    refine ⟨hsc, fun len => ?_⟩
    by_cases h1 : tx.initialized = false
    · simpa [tx_callback, h1] using hidle
    · by_cases h2 : len = FL2K_BUF_LEN
      · have hfi := (fillLoop_idle tx.sine tx.wspr_data tx.wspr_step tx.phs1
          tx.phs2 tx.wspr_freq FL2K_BUF_LEN (loopStOf tx) (by simp [loopStOf, hidle])).2.1
        subst h2
        simp only [tx_callback, if_neg h1, ne_eq, not_true_eq_false, if_false,
          ite_false, if_neg, hsc]
        rw [writeBack_wspr_on]
        exact hfi
      · simpa [tx_callback, h1, h2] using hidle

/-- Closed witness for c2_start_transition at a concrete input. -/
theorem c2_start_transition_witness :
    tx0.wspr_on = false ∧ startCheck 121 tx0 = startTx tx0 :=
  ⟨rfl, ((c2_start_transition 121 tx0 rfl).1 (by norm_num)).1⟩

/-- C8: the two channel phase shifts are exchanged exactly when a
buffer-fill call actually starts a transmission with the swap flag set
(never per sample, and never on calls that do not start one), so with the
flag set they alternate between consecutive transmission starts; with the
flag clear they never change. -/
theorem c8_phase_shift_swap (now len : Nat) (tx : Transmitter) :
    (((tx_callback now len tx).1.phs1, (tx_callback now len tx).1.phs2) =
      if tx.initialized = true ∧ len = FL2K_BUF_LEN ∧ tx.wspr_on = false ∧
          now % 120 = 1 ∧ tx.ps = true
      then (tx.phs2, tx.phs1) else (tx.phs1, tx.phs2)) ∧
    (tx.ps = true → (startTx tx).phs1 = tx.phs2 ∧ (startTx tx).phs2 = tx.phs1 ∧
      (startTx (startTx tx)).phs1 = tx.phs1 ∧ (startTx (startTx tx)).phs2 = tx.phs2) ∧
    (tx.ps = false → (startTx tx).phs1 = tx.phs1 ∧ (startTx tx).phs2 = tx.phs2) := by
  refine ⟨?_, fun h => by simp [startTx, h], fun h => by simp [startTx, h]⟩
  by_cases h1 : tx.initialized = false
  · simp [tx_callback, h1]
  · have h1' : tx.initialized = true := by revert h1; cases tx.initialized <;> simp
    by_cases h2 : len = FL2K_BUF_LEN
    · by_cases h3 : tx.wspr_on = false
      · by_cases h4 : now % 120 = 1
        · by_cases h5 : tx.ps = true
          · simp [tx_callback, h1', h2, writeBack, startCheck, h3, h4, h5, startTx]
          · have h5' : tx.ps = false := by revert h5; cases tx.ps <;> simp
            simp [tx_callback, h1', h2, writeBack, startCheck, h3, h4, h5', startTx]
        · simp [tx_callback, h1', h2, writeBack, startCheck, h3, h4]
      · simp [tx_callback, h1', h2, writeBack, startCheck, h3]
    · simp [tx_callback, h1', h2]

/-- Closed witness for c8_phase_shift_swap at a concrete input. -/
theorem c8_phase_shift_swap_witness :
    ({ tx0 with ps := true, phs1 := 1, phs2 := 2 } : Transmitter).ps = true ∧
    (startTx { tx0 with ps := true, phs1 := 1, phs2 := 2 }).phs1 = 2 ∧
    (startTx { tx0 with ps := true, phs1 := 1, phs2 := 2 }).phs2 = 1 :=
  ⟨rfl,
   ((c8_phase_shift_swap 0 0 { tx0 with ps := true, phs1 := 1, phs2 := 2 }).2.1 rfl).1,
   ((c8_phase_shift_swap 0 0 { tx0 with ps := true, phs1 := 1, phs2 := 2 }).2.1 rfl).2.1⟩

/-- Headroom arithmetic shared by the dithered-quantization claims: with
a table entry in [-0x7EFF, 0x7EFF] and an 8-bit dither offset, the biased
pre-quantization value stays within [1, 0xFEFE], the int16 accumulation
does not wrap, the uint16 conversion is exact, and the emitted byte is at
most 0xFE. -/
theorem headroom_core (e : Int) (d : Nat) (hel : -0x7EFF ≤ e)
    (her : e ≤ 0x7EFF) (hd : d ≤ 0xFF) :
    1 ≤ 0x7F00 + (e + (d : Int)) ∧
    0x7F00 + (e + (d : Int)) ≤ 0xFEFE ∧
    i16 (e + (d : Int)) = e + (d : Int) ∧
    quant (i16 (e + (d : Int))) = (0x7F00 + (e + (d : Int))).toNat / 256 ∧
    quant (i16 (e + (d : Int))) ≤ 0xFE := by
  have hi : i16 (e + (d : Int)) = e + (d : Int) := by
    simp only [i16]
    omega
  refine ⟨by omega, by omega, hi, ?_, ?_⟩
  · rw [hi]
    simp only [quant]
    omega
  · rw [hi]
    simp only [quant]
    omega

/-- Bound on the sine-table value read through sineVal, given a bound on
every table entry. -/
theorem sineVal_bounds (sine : List Int)
    (hs : ∀ x ∈ sine, -0x7EFF ≤ x ∧ x ≤ 0x7EFF) (j : Nat) :
    -0x7EFF ≤ sineVal sine j ∧ sineVal sine j ≤ 0x7EFF := by
  rcases getD_mem_or_default sine 0 j with h | h
  · exact hs _ h
  · have hz : sineVal sine j = 0 := h
    rw [hz]
    norm_num

/-- C9: during transmission, for every sample and channel, the
pre-quantization value 0x7F00 + (table entry + 8-bit dither) lies within
[1, 0xFEFE], so the 16-bit unsigned conversion before the final right
shift never wraps and every emitted byte is in [0x00, 0xFE]: the table
amplitude 0x7EFF leaves exactly the headroom needed by the dither. -/
theorem c9_dither_headroom (sine : List Int) (data : List Nat)
    (step phs1 phs2 base : Nat) (s : LoopSt) (idx d : Nat)
    (hs : ∀ x ∈ sine, -0x7EFF ≤ x ∧ x ≤ 0x7EFF)
    (hd : d ≤ 0xFF) (hon : s.wOn = true) :
    (1 ≤ 0x7F00 + (sineVal sine idx + (d : Int)) ∧
     0x7F00 + (sineVal sine idx + (d : Int)) ≤ 0xFEFE ∧
     i16 (sineVal sine idx + (d : Int)) = sineVal sine idx + (d : Int) ∧
     quant (i16 (sineVal sine idx + (d : Int))) =
       (0x7F00 + (sineVal sine idx + (d : Int))).toNat / 256 ∧
     quant (i16 (sineVal sine idx + (d : Int))) ≤ 0xFE) ∧
    ((sampleStep sine data step phs1 phs2 base s).2.1 ≤ 0xFE ∧
     (sampleStep sine data step phs1 phs2 base s).2.2.1 ≤ 0xFE ∧
     (sampleStep sine data step phs1 phs2 base s).2.2.2 ≤ 0xFE) := by
  have hb := sineVal_bounds sine hs idx
  refine ⟨headroom_core _ _ hb.1 hb.2 hd, ?_⟩
  have hq : ∀ (j dd : Nat), dd ≤ 255 →
      quant (i16 (sineVal sine j + (dd : Int))) ≤ 0xFE := by
    intro j dd hdd
    have hbj := sineVal_bounds sine hs j
    exact (headroom_core _ _ hbj.1 hbj.2 hdd).2.2.2.2
  simp only [sampleStep, hon, if_true]
  split_ifs <;>
    exact ⟨hq _ _ (by omega), hq _ _ (by omega), hq _ _ (by omega)⟩

/-- Closed witness for c9_dither_headroom at a concrete input. -/
theorem c9_dither_headroom_witness :
    (∀ x ∈ ([0x7EFF, -0x7EFF, 0] : List Int), -0x7EFF ≤ x ∧ x ≤ 0x7EFF) ∧
    (255 : Nat) ≤ 0xFF ∧
    quant (i16 (sineVal [0x7EFF, -0x7EFF, 0] 0 + (255 : Int))) ≤ 0xFE := by
  refine ⟨by decide, by norm_num, ?_⟩
  exact (c9_dither_headroom [0x7EFF, -0x7EFF, 0] [] 1 0 0 0
    { phase := 0, freq := 0, lcg := 0, symphase := 0, wspr_i := 0, wOn := true }
    0 255 (by decide) (by norm_num) rfl).1.2.2.2.2

/-- Behavior of one buffer-fill call made while idle when the scheduling
condition does not hold: the oscillator phase is unchanged, the
transmitter stays idle, and any buffers the call does emit carry only the
0x80 no-signal code. -/
theorem tx_callback_idle_no_start (now len : Nat) (tx : Transmitter)
    (hidle : tx.wspr_on = false) (h : now % 120 ≠ 1) :
    (tx_callback now len tx).1.phase = tx.phase ∧
    (tx_callback now len tx).1.wspr_on = false ∧
    (∀ bufs, (tx_callback now len tx).2 = some bufs →
      (∀ x ∈ bufs.1, x = 0x80) ∧ (∀ x ∈ bufs.2.1, x = 0x80) ∧
      (∀ x ∈ bufs.2.2, x = 0x80)) := by
  by_cases h1 : tx.initialized = false
  · refine ⟨by simp [tx_callback, h1], by simpa [tx_callback, h1] using hidle, ?_⟩
    intro bufs hb
    simp [tx_callback, h1] at hb
  · by_cases h2 : len = FL2K_BUF_LEN
    · subst h2
      have hsc : startCheck now tx = tx := by simp [startCheck, h]
      have hfi := fillLoop_idle tx.sine tx.wspr_data tx.wspr_step tx.phs1
        tx.phs2 tx.wspr_freq FL2K_BUF_LEN (loopStOf tx) (by simp [loopStOf, hidle])
      simp only [tx_callback, if_neg h1, ne_eq, not_true_eq_false, if_false,
        ite_false, if_neg, hsc]
      refine ⟨?_, ?_, ?_⟩
      · rw [writeBack_phase]
        exact hfi.1
      · rw [writeBack_wspr_on]
        exact hfi.2.1
      · intro bufs hb
        simp only [Option.some.injEq] at hb
        subst hb
        refine ⟨?_, ?_, ?_⟩ <;>
          · intro x hx
            rw [List.mem_map] at hx
            obtain ⟨p, hp, hpx⟩ := hx
            rw [hfi.2.2 p hp] at hpx
            exact hpx.symm
    · refine ⟨by simp [tx_callback, h1, h2], by simpa [tx_callback, h1, h2] using hidle, ?_⟩
      intro bufs hb
      simp [tx_callback, h1, h2] at hb

/-- C6: for every sequence of buffer-fill calls during which the
transmitter never enters TRANSMITTING (it starts idle and the wall-clock
time of no call satisfies the scheduling condition), every emitted sample
on every one of the three channels is the fixed no-signal code 0x80, and
the oscillator phase is unchanged across the whole sequence. -/
theorem c6_idle_output (tx : Transmitter) (calls : List (Nat × Nat))
    (hidle : tx.wspr_on = false)
    (hno : ∀ c ∈ calls, c.1 % 120 ≠ 1) :
    (runCalls calls tx).1.phase = tx.phase ∧
    (runCalls calls tx).1.wspr_on = false ∧
    (∀ o ∈ (runCalls calls tx).2, ∀ bufs, o = some bufs →
      (∀ x ∈ bufs.1, x = 0x80) ∧ (∀ x ∈ bufs.2.1, x = 0x80) ∧
      (∀ x ∈ bufs.2.2, x = 0x80)) := by
  induction calls generalizing tx with
  | nil => exact ⟨rfl, hidle, by simp [runCalls]⟩
  | cons c rest ih =>
    have hc := tx_callback_idle_no_start c.1 c.2 tx hidle (hno c (by simp))
    have ihr := ih (tx_callback c.1 c.2 tx).1 hc.2.1
      (fun d hd => hno d (by simp [hd]))
    simp only [runCalls]
    refine ⟨?_, ihr.2.1, ?_⟩
    · rw [ihr.1, hc.1]
    · intro o ho bufs hb
      simp only [List.mem_cons] at ho
      rcases ho with ho | ho
      · subst ho
        exact hc.2.2 bufs hb
      · exact ihr.2.2 o ho bufs hb

/-- Closed witness for c6_idle_output at a concrete input. -/
theorem c6_idle_output_witness :
    tx0.wspr_on = false ∧ (∀ c ∈ [((0 : Nat), (0 : Nat))], c.1 % 120 ≠ 1) ∧
    (runCalls [(0, 0)] tx0).1.phase = tx0.phase :=
  ⟨rfl, by decide, (c6_idle_output tx0 [(0, 0)] rfl (by decide)).1⟩

/-- C4 counterexample: a buffer-fill call whose requested count (here 1)
differs from the negotiated FL2K_BUF_LEN returns with the channel buffers
untouched (no filled buffers are produced and the state is unchanged), so
the claim does not hold for every requested count. -/
theorem c4_requested_count_cex :
    (1 : Nat) ≠ FL2K_BUF_LEN ∧
    tx_callback 0 1 { tx0 with initialized := true } =
      ({ tx0 with initialized := true }, none) := by
  have hne : (1 : Nat) ≠ FL2K_BUF_LEN := by unfold FL2K_BUF_LEN; norm_num
  refine ⟨hne, ?_⟩
  rw [tx_callback]
  rw [if_neg (by simp)]
  rw [if_pos hne]

/-- C4 amended: a buffer-fill call made on an initialized transmitter
with the negotiated count FL2K_BUF_LEN processes exactly that many
samples and returns all three channel buffers fully populated with
FL2K_BUF_LEN samples each; a call with any other count is rejected and
leaves the state and buffers untouched. -/
theorem c4_exact_fill (now len : Nat) (tx : Transmitter)
    (hinit : tx.initialized = true) (hlen : len = FL2K_BUF_LEN) :
    (∃ b0 b1 b2, (tx_callback now len tx).2 = some (b0, b1, b2) ∧
      b0.length = FL2K_BUF_LEN ∧ b1.length = FL2K_BUF_LEN ∧
      b2.length = FL2K_BUF_LEN) ∧
    (∀ len2, len2 ≠ FL2K_BUF_LEN → tx_callback now len2 tx = (tx, none)) := by
  have hni : ¬ tx.initialized = false := by rw [hinit]; simp
  constructor
  · subst hlen
    simp only [tx_callback, if_neg hni, ne_eq, not_true_eq_false, if_false,
      ite_false, if_neg]
    refine ⟨_, _, _, rfl, ?_, ?_, ?_⟩ <;>
      rw [List.length_map, fillLoop_length]
  · intro len2 hl2
    rw [tx_callback, if_neg hni, if_pos hl2]

/-- Closed witness for c4_exact_fill at a concrete input. -/
theorem c4_exact_fill_witness :
    ({ tx0 with initialized := true } : Transmitter).initialized = true ∧
    tx_callback 0 1 { tx0 with initialized := true } =
      ({ tx0 with initialized := true }, none) :=
  ⟨rfl, (c4_exact_fill 0 FL2K_BUF_LEN { tx0 with initialized := true } rfl rfl).2
    1 (by unfold FL2K_BUF_LEN; norm_num)⟩

/-- The frequency list stored during parsing never exceeds MAX_FREQS
entries (extra f parameters are silently dropped, not rejected). -/
theorem foldl_fList_le (ps : List Param) :
    ∀ c : Conf, c.fList.length ≤ MAX_FREQS →
      (List.foldl applyParam c ps).fList.length ≤ MAX_FREQS := by
  induction ps with
  | nil => intro c h; exact h
  | cons p rest ih =>
    intro c h
    refine ih (applyParam c p) ?_
    cases p with
    | pF v =>
      simp only [applyParam]
      split_ifs with hlt
      · simp only [List.length_append, List.length_cons, List.length_nil]
        omega
      · exact h
    | pS s => simpa [applyParam] using h
    | pPs v => simpa [applyParam] using h
    | pId v => exact h
    | pFs v => exact h
    | pPpm v => exact h
    | pP1 v => exact h
    | pP2 v => exact h

set_option maxRecDepth 100000 in
/-- C5 counterexample: a configuration supplying 17 center frequencies
(one more than the supported maximum of 16) together with a valid
162-symbol sequence is accepted by initialization, not rejected: the
17th frequency is silently dropped during parsing. -/
theorem c5_too_many_freqs_cex :
    mainInit (List.replicate 17 (Param.pF 0) ++ [Param.pS (List.replicate 162 0)]) =
      some { fList := List.replicate 16 0, s := List.replicate 162 0, ps := 0 } := by
  rfl

/-- C5 amended: initialization rejects exactly the configurations whose
symbol sequence length differs from 162 or whose frequency list is empty;
frequency parameters beyond the supported maximum of 16 are silently
dropped during parsing (the stored list never exceeds 16 entries), so
over-supplying frequencies is not rejected; a rejected configuration
prevents startup, leaving the transmitter in its uninitialized zero
state. -/
theorem c5_init_validation (ps : List Param) (conv : Nat → Nat) (stp : Nat)
    (sn : List Int) (p1 p2 : Nat) :
    (mainInit ps = none ↔
      ((parseConf ps).s.length ≠ WSPR_LEN ∨ (parseConf ps).fList.length = 0)) ∧
    (parseConf ps).fList.length ≤ MAX_FREQS ∧
    (mainInit ps = none → mainTx ps conv stp sn p1 p2 = tx0) ∧
    ((mainTx ps conv stp sn p1 p2).initialized = true ↔ mainInit ps ≠ none) := by
  refine ⟨?_, ?_, ?_, ?_⟩
  · unfold mainInit validateConf
    split_ifs with ha hb
    · simp [ha]
    · simp [hb]
    · simp [ha, hb]
  · exact foldl_fList_le ps conf0 (by simp [conf0, MAX_FREQS])
  · intro h
    unfold mainTx
    rw [h]
  · unfold mainTx
    cases hm : mainInit ps with
    | none => simp [tx0]
    | some c => simp [tx_init]

/-- Closed witness for c5_init_validation at a concrete input. -/
theorem c5_init_validation_witness :
    mainInit [] = none ∧ mainTx [] (fun x => x) 0 [] 0 0 = tx0 :=
  ⟨rfl, (c5_init_validation [] (fun x => x) 0 [] 0 0).2.2.1 rfl⟩

/-- The per-sample step preserves the reachability invariant that the
symbol index stays below WSPR_LEN while transmitting. -/
theorem sampleStep_inv (sine : List Int) (data : List Nat)
    (step phs1 phs2 base : Nat) (s : LoopSt)
    (h : s.wOn = true → s.wspr_i < WSPR_LEN) :
    (sampleStep sine data step phs1 phs2 base s).1.wOn = true →
    (sampleStep sine data step phs1 phs2 base s).1.wspr_i < WSPR_LEN := by
  by_cases hon : s.wOn
  · simp only [sampleStep, hon, if_true]
    split_ifs with h1 h2
    · intro
      simpa using h2
    · intro hf
      simp at hf
    · intro
      simpa using h hon
  · rw [sampleStep_idle sine data step phs1 phs2 base s (by simpa using hon)]
    intro hf
    simp at hf
    exact absurd hf hon

/-- The invariant of sampleStep_inv carried through n loop iterations. -/
theorem stepN_inv (sine : List Int) (data : List Nat)
    (step phs1 phs2 base : Nat) (n : Nat) :
    ∀ s : LoopSt, (s.wOn = true → s.wspr_i < WSPR_LEN) →
      ((stepN sine data step phs1 phs2 base n s).wOn = true →
       (stepN sine data step phs1 phs2 base n s).wspr_i < WSPR_LEN) := by
  induction n with
  | zero => intro s h; exact h
  | succ m ih =>
    intro s h
    simp only [stepN]
    exact ih _ (sampleStep_inv sine data step phs1 phs2 base s h)

/-- Checked-access refinement for the per-sample loop body: with the sine
table at its build size and the symbol sequence at its validated length,
every bounds-checked read of sampleStepC succeeds and the checked step
computes exactly sampleStep. -/
theorem sampleStepC_refines (sine : List Int) (data : List Nat)
    (step phs1 phs2 base : Nat) (s : LoopSt)
    (hsine : sine.length = SINE_SIZE) (hdata : data.length = WSPR_LEN) :
    sampleStepC sine data step phs1 phs2 base s =
      some (sampleStep sine data step phs1 phs2 base s) := by
  have hg : ∀ j : Nat, sine.get? (sineIdx j) = some (sineVal sine (sineIdx j)) :=
    fun j => get?_eq_some_getD sine 0 (sineIdx j) (by rw [hsine]; exact sineIdx_lt j)
  by_cases hon : s.wOn
  · simp only [sampleStepC, sampleStep, hon, if_true, hg, Option.some_bind]
    split_ifs with h1 h2
    · have hd : data.get? ((s.wspr_i + 1) % 2 ^ 32) =
          some (data.getD ((s.wspr_i + 1) % 2 ^ 32) 0) :=
        get?_eq_some_getD data 0 _ (by rw [hdata]; exact h2)
      rw [hd]
      rfl
    · rfl
    · rfl
  · simp only [sampleStepC, sampleStep, hon, if_false, Bool.false_eq_true]

/-- Checked-access refinement for the transmission-start block: with the
band index inside the frequency list and a nonempty symbol sequence, both
reads succeed and the checked start computes exactly startTx. -/
theorem startTxC_refines (tx : Transmitter)
    (hf : tx.wspr_freq_i < tx.wspr_freqs.length)
    (hd : 0 < tx.wspr_data.length) :
    startTxC tx = some (startTx tx) := by
  unfold startTxC startTx
  rw [get?_eq_some_getD tx.wspr_freqs 0 tx.wspr_freq_i hf,
    get?_eq_some_getD tx.wspr_data 0 0 hd]
  rfl

/-- The reachability invariant (band index in range; symbol index below
WSPR_LEN while transmitting) is preserved by every buffer-fill call. -/
theorem tx_callback_inv (now len : Nat) (tx : Transmitter)
    (h1 : tx.wspr_freq_i < tx.wspr_freqs.length)
    (h2 : tx.wspr_on = true → tx.wspr_i < WSPR_LEN) :
    (tx_callback now len tx).1.wspr_freq_i <
      (tx_callback now len tx).1.wspr_freqs.length ∧
    ((tx_callback now len tx).1.wspr_on = true →
      (tx_callback now len tx).1.wspr_i < WSPR_LEN) := by
  by_cases hi : tx.initialized = false
  · simp only [tx_callback, hi, if_true]
    exact ⟨h1, h2⟩
  · by_cases hl : len = FL2K_BUF_LEN
    · subst hl
      have hstart : (startCheck now tx).wspr_freq_i <
          (startCheck now tx).wspr_freqs.length ∧
          ((startCheck now tx).wspr_on = true →
            (startCheck now tx).wspr_i < WSPR_LEN) := by
        unfold startCheck
        split_ifs with hc
        · refine ⟨?_, ?_⟩
          · rw [startTx_wspr_freq_i, startTx_wspr_freqs]
            exact Nat.mod_lt _ (by omega)
          · intro
            rw [startTx_wspr_i]
            norm_num [WSPR_LEN]
        · exact ⟨h1, h2⟩
      have hloop := stepN_inv (startCheck now tx).sine (startCheck now tx).wspr_data
        (startCheck now tx).wspr_step (startCheck now tx).phs1 (startCheck now tx).phs2
        (startCheck now tx).wspr_freq FL2K_BUF_LEN (loopStOf (startCheck now tx)) hstart.2
      have hfs := fillLoop_state (startCheck now tx).sine (startCheck now tx).wspr_data
        (startCheck now tx).wspr_step (startCheck now tx).phs1 (startCheck now tx).phs2
        (startCheck now tx).wspr_freq FL2K_BUF_LEN (loopStOf (startCheck now tx))
      simp only [tx_callback, if_neg hi, ne_eq, not_true_eq_false, if_false,
        ite_false, if_neg]
      refine ⟨?_, ?_⟩
      · rw [writeBack_wspr_freq_i, writeBack_wspr_freqs]
        exact hstart.1
      · rw [writeBack_wspr_on, writeBack_wspr_i, hfs]
        exact hloop
    · simp only [tx_callback, if_neg hi, if_pos hl]
      exact ⟨h1, h2⟩

/-- State installed by a successful initialization: band index 0 on a
nonempty frequency list, 162 symbol values, transmitter idle. -/
theorem mainTx_init_state (ps : List Param) (conv : Nat → Nat) (stp : Nat)
    (sn : List Int) (p1 p2 : Nat) (c : Conf) (h : mainInit ps = some c) :
    (mainTx ps conv stp sn p1 p2).wspr_freq_i = 0 ∧
    0 < (mainTx ps conv stp sn p1 p2).wspr_freqs.length ∧
    (mainTx ps conv stp sn p1 p2).wspr_data.length = WSPR_LEN ∧
    (mainTx ps conv stp sn p1 p2).wspr_on = false := by
  have hval : c.s.length = WSPR_LEN ∧ c.fList.length ≠ 0 := by
    unfold mainInit validateConf at h
    by_cases ha : (parseConf ps).s.length ≠ WSPR_LEN
    · rw [if_pos ha] at h
      exact absurd h (by simp)
    · rw [if_neg ha] at h
      by_cases hb : (parseConf ps).fList.length = 0
      · rw [if_pos hb] at h
        exact absurd h (by simp)
      · rw [if_neg hb] at h
        simp only [Option.some.injEq] at h
        subst h
        exact ⟨by simpa using ha, hb⟩
  unfold mainTx
  rw [h]
  unfold tx_init
  refine ⟨rfl, ?_, ?_, rfl⟩
  · show 0 < (c.fList.map conv).length
    rw [List.length_map]
    omega
  · show c.s.length = WSPR_LEN
    exact hval.1

/-- C10: every array access of the buffer-fill path stays in bounds in
every reachable state: every sine-table index (the 64-bit dithered phase
shifted right by 64 minus the table shift) is below the table size;
combined with the validated table and symbol-sequence lengths, the
bounds-checked variant of the per-sample loop body computes exactly the
unchecked one (so the symbol read happens only under its index guard);
the start-block reads of the frequency list and symbol 0 succeed under
the band-index invariant; that invariant, with the symbol-index bound,
is preserved by every call and established by initialization. -/
theorem c10_array_access_bounds (sine : List Int) (data : List Nat)
    (step phs1 phs2 base : Nat) (s : LoopSt) (tx : Transmitter)
    (now len : Nat) (ps : List Param) (conv : Nat → Nat) (stp : Nat)
    (sn : List Int) (p1 p2 : Nat) (c : Conf)
    (hsine : sine.length = SINE_SIZE) (hdata : data.length = WSPR_LEN)
    (hfidx : tx.wspr_freq_i < tx.wspr_freqs.length)
    (hnonempty : 0 < tx.wspr_data.length)
    (hwi : tx.wspr_on = true → tx.wspr_i < WSPR_LEN)
    (hini : mainInit ps = some c) :
    (∀ ph : Nat, sineIdx ph < SINE_SIZE) ∧
    sampleStepC sine data step phs1 phs2 base s =
      some (sampleStep sine data step phs1 phs2 base s) ∧
    startTxC tx = some (startTx tx) ∧
    ((tx_callback now len tx).1.wspr_freq_i <
        (tx_callback now len tx).1.wspr_freqs.length ∧
      ((tx_callback now len tx).1.wspr_on = true →
        (tx_callback now len tx).1.wspr_i < WSPR_LEN)) ∧
    ((mainTx ps conv stp sn p1 p2).wspr_freq_i = 0 ∧
      0 < (mainTx ps conv stp sn p1 p2).wspr_freqs.length ∧
      (mainTx ps conv stp sn p1 p2).wspr_data.length = WSPR_LEN ∧
      (mainTx ps conv stp sn p1 p2).wspr_on = false) :=
  ⟨sineIdx_lt,
   sampleStepC_refines sine data step phs1 phs2 base s hsine hdata,
   startTxC_refines tx hfidx hnonempty,
   tx_callback_inv now len tx hfidx hwi,
   mainTx_init_state ps conv stp sn p1 p2 c hini⟩

/-- Closed witness for c10_array_access_bounds at a concrete input. -/
theorem c10_array_access_bounds_witness :
    (List.replicate 1024 (0 : Int)).length = SINE_SIZE ∧
    (List.replicate 162 (0 : Nat)).length = WSPR_LEN ∧
    ({ tx0 with wspr_freqs := [7], wspr_data := [3] } : Transmitter).wspr_freq_i <
      ({ tx0 with wspr_freqs := [7], wspr_data := [3] } : Transmitter).wspr_freqs.length ∧
    mainInit [Param.pS (List.replicate 162 0), Param.pF 5] =
      some { fList := [5], s := List.replicate 162 0, ps := 0 } ∧
    startTxC { tx0 with wspr_freqs := [7], wspr_data := [3] } =
      some (startTx { tx0 with wspr_freqs := [7], wspr_data := [3] }) := by
  refine ⟨by norm_num [SINE_SIZE, SINE_SHIFT], by norm_num [WSPR_LEN], by decide, ?_, ?_⟩
  · set_option maxRecDepth 100000 in rfl
  · exact (c10_array_access_bounds (List.replicate 1024 0) (List.replicate 162 0)
      1 0 0 0 { phase := 0, freq := 0, lcg := 0, symphase := 0, wspr_i := 0, wOn := false }
      { tx0 with wspr_freqs := [7], wspr_data := [3] } 0 0
      [Param.pS (List.replicate 162 0), Param.pF 5] (fun x => x) 0 [] 0 0
      { fList := [5], s := List.replicate 162 0, ps := 0 }
      (by norm_num [SINE_SIZE, SINE_SHIFT]) (by norm_num [WSPR_LEN]) (by decide) (by decide)
      (by decide)
      (by set_option maxRecDepth 100000 in rfl)).2.2.1

/-- Field characterization of an active per-sample step, for the trace
induction. -/
theorem sampleStep_active (sine : List Int) (data : List Nat)
    (step phs1 phs2 base : Nat) (s : LoopSt) (hon : s.wOn = true) :
    (sampleStep sine data step phs1 phs2 base s).1.symphase =
      (s.symphase + step) % U64 ∧
    ((s.symphase + step) % U64 < s.symphase →
      (sampleStep sine data step phs1 phs2 base s).1.wspr_i =
        (s.wspr_i + 1) % 2 ^ 32 ∧
      ((s.wspr_i + 1) % 2 ^ 32 < WSPR_LEN →
        (sampleStep sine data step phs1 phs2 base s).1.wOn = true) ∧
      (¬ (s.wspr_i + 1) % 2 ^ 32 < WSPR_LEN →
        (sampleStep sine data step phs1 phs2 base s).1.wOn = false)) ∧
    (¬ (s.symphase + step) % U64 < s.symphase →
      (sampleStep sine data step phs1 phs2 base s).1.wspr_i = s.wspr_i ∧
      (sampleStep sine data step phs1 phs2 base s).1.wOn = true) := by
  by_cases hw : (s.symphase + step) % U64 < s.symphase
  · by_cases h2 : (s.wspr_i + 1) % 2 ^ 32 < WSPR_LEN
    · have h2b : (s.wspr_i + 1) % 4294967296 < WSPR_LEN := by
        norm_num at h2
        exact h2
      simp [sampleStep, hon, hw, h2, h2b]
    · have h2b : ¬ (s.wspr_i + 1) % 4294967296 < WSPR_LEN := by
        norm_num at h2
        omega
      simp [sampleStep, hon, hw, h2, h2b]
  · simp [sampleStep, hon, hw]

/-- Field characterization of an idle per-sample step. -/
theorem sampleStep_idle_fields (sine : List Int) (data : List Nat)
    (step phs1 phs2 base : Nat) (s : LoopSt) (hoff : s.wOn = false) :
    (sampleStep sine data step phs1 phs2 base s).1.symphase = s.symphase ∧
    (sampleStep sine data step phs1 phs2 base s).1.wspr_i = s.wspr_i ∧
    (sampleStep sine data step phs1 phs2 base s).1.wOn = false := by
  rw [sampleStep_idle sine data step phs1 phs2 base s hoff]
  exact ⟨rfl, rfl, hoff⟩

theorem WSPR_val : WSPR_LEN = 162 := rfl

/-- The whole-transmission trace invariant: starting a frame (symbol
phase 0, symbol index 0, active) and stepping n samples with a nonzero
symbol step, the number of symbol-phase wraps so far is the virtual total
n * step divided by 2^64, capped at 162; while fewer than 162 wraps have
occurred the transmitter is active with symbol index equal to the wrap
count, and as soon as 162 wraps have occurred it is idle with symbol
index 162 and the wrap count stays 162. -/
theorem run_invariant (sine : List Int) (data : List Nat)
    (step phs1 phs2 base : Nat) (s0 : LoopSt)
    (hstep : 0 < step) (hstep2 : step < U64)
    (hsym0 : s0.symphase = 0) (hi0 : s0.wspr_i = 0) (hon0 : s0.wOn = true) :
    ∀ n : Nat,
      ((n * step / U64 < WSPR_LEN →
        (stepN sine data step phs1 phs2 base n s0).wOn = true ∧
        (stepN sine data step phs1 phs2 base n s0).wspr_i = n * step / U64 ∧
        (stepN sine data step phs1 phs2 base n s0).symphase = n * step % U64) ∧
       (WSPR_LEN ≤ n * step / U64 →
        (stepN sine data step phs1 phs2 base n s0).wOn = false ∧
        (stepN sine data step phs1 phs2 base n s0).wspr_i = WSPR_LEN)) ∧
      wrapCount sine data step phs1 phs2 base n s0 =
        min WSPR_LEN (n * step / U64) := by
  intro n
  induction n with
  | zero =>
    simp only [stepN, wrapCount, Nat.zero_mul, Nat.zero_div, Nat.zero_mod]
    exact ⟨⟨fun _ => ⟨hon0, hi0, hsym0⟩,
      fun hq => absurd hq (by simp [WSPR_val])⟩, by simp⟩
  | succ n ih =>
    obtain ⟨⟨ihA, ihB⟩, ihW⟩ := ih
    have hsm : (n + 1) * step = n * step + step := Nat.succ_mul n step
    have hUpos : 0 < U64 := by simp only [U64_val]; norm_num
    simp only [wrapCount, stepN_succ_back]
    by_cases hq : n * step / U64 < WSPR_LEN
    · obtain ⟨hon, hi, hsym⟩ := ihA hq
      have hchar := sampleStep_active sine data step phs1 phs2 base
        (stepN sine data step phs1 phs2 base n s0) hon
      have hrlt : n * step % U64 < U64 := Nat.mod_lt _ hUpos
      by_cases hw : U64 ≤ n * step % U64 + step
      · have hwrap : ((stepN sine data step phs1 phs2 base n s0).symphase + step)
            % U64 < (stepN sine data step phs1 phs2 base n s0).symphase := by
          rw [hsym]
          exact (wrap_iff _ step hrlt hstep2).2 hw
        obtain ⟨hnc1, hnc2, hnc3⟩ := hchar.2.1 hwrap
        have hdiv : (n + 1) * step / U64 = n * step / U64 + 1 := by
          rw [hsm]
          simp only [U64_val] at *
          omega
        have hmod : (n + 1) * step % U64 = (n * step % U64 + step) % U64 := by
          rw [hsm]
          simp only [U64_val] at *
          omega
        have hi32 : ((stepN sine data step phs1 phs2 base n s0).wspr_i + 1)
            % 2 ^ 32 = n * step / U64 + 1 := by
          rw [hi]
          simp only [WSPR_val] at hq
          have h32 : (2 : Nat) ^ 32 = 4294967296 := by norm_num
          rw [h32]
          omega
        have hcond : (sampleStep sine data step phs1 phs2 base
            (stepN sine data step phs1 phs2 base n s0)).1.symphase <
            (stepN sine data step phs1 phs2 base n s0).symphase := by
          rw [hchar.1]
          exact hwrap
        refine ⟨⟨?_, ?_⟩, ?_⟩
        · intro hq2
          rw [hdiv] at hq2
          refine ⟨hnc2 (by rw [hi32]; exact hq2), ?_, ?_⟩
          · rw [hnc1, hi32, hdiv]
          · rw [hchar.1, hsym]
            exact hmod.symm
        · intro hq2
          rw [hdiv] at hq2
          have hq162 : n * step / U64 + 1 = WSPR_LEN := by
            simp only [WSPR_val] at *
            omega
          refine ⟨hnc3 (by rw [hi32, hq162]; omega), ?_⟩
          rw [hnc1, hi32, hq162]
        · rw [if_pos hcond, ihW, hdiv]
          simp only [WSPR_val] at *
          omega
      · have hnwrap : ¬ ((stepN sine data step phs1 phs2 base n s0).symphase + step)
            % U64 < (stepN sine data step phs1 phs2 base n s0).symphase := by
          rw [hsym]
          intro hcon
          exact hw ((wrap_iff _ step hrlt hstep2).1 hcon)
        obtain ⟨hnc1, hnc2⟩ := hchar.2.2 hnwrap
        have hdiv : (n + 1) * step / U64 = n * step / U64 := by
          rw [hsm]
          simp only [U64_val] at *
          omega
        have hmod2 : (n + 1) * step % U64 = n * step % U64 + step := by
          rw [hsm]
          simp only [U64_val] at *
          omega
        have hcond : ¬ (sampleStep sine data step phs1 phs2 base
            (stepN sine data step phs1 phs2 base n s0)).1.symphase <
            (stepN sine data step phs1 phs2 base n s0).symphase := by
          rw [hchar.1]
          exact hnwrap
        refine ⟨⟨?_, ?_⟩, ?_⟩
        · intro hq2
          refine ⟨hnc2, by rw [hnc1, hi, hdiv], ?_⟩
          rw [hchar.1, hsym, hmod2]
          apply Nat.mod_eq_of_lt
          simp only [U64_val] at *
          omega
        · intro hq2
          rw [hdiv] at hq2
          exact absurd hq2 (by omega)
        · rw [if_neg hcond, ihW, hdiv]
          omega
    · push_neg at hq
      obtain ⟨hoff, hi162⟩ := ihB hq
      have hidle := sampleStep_idle_fields sine data step phs1 phs2 base
        (stepN sine data step phs1 phs2 base n s0) hoff
      have hdivmono : n * step / U64 ≤ (n + 1) * step / U64 :=
        Nat.div_le_div_right (by rw [hsm]; omega)
      have hcond : ¬ (sampleStep sine data step phs1 phs2 base
          (stepN sine data step phs1 phs2 base n s0)).1.symphase <
          (stepN sine data step phs1 phs2 base n s0).symphase := by
        rw [hidle.1]
        exact lt_irrefl _
      refine ⟨⟨?_, ?_⟩, ?_⟩
      · intro hq2
        exact absurd hq2 (by omega)
      · intro hq2
        exact ⟨hidle.2.2, by rw [hidle.2.1, hi162]⟩
      · rw [if_neg hcond, ihW]
        simp only [WSPR_val] at *
        omega

/-- C1: once a transmission begins (active, symbol index 0, symbol phase
0), for every symbol_step > 0 exactly 162 symbol-phase wrap events occur
before the transmitter returns to idle: the symbol index only advances
while active; active goes true to false exactly when the symbol index
reaches 162; along the whole trace the wrap count equals the symbol
index, capped at 162, and the transmitter is idle again precisely when
162 wraps have occurred — which does happen (witnessed after
162 * 2^64 samples). -/
theorem c1_frame_length (sine : List Int) (data : List Nat)
    (step phs1 phs2 base p0 f0 l0 : Nat)
    (hstep : 0 < step) (hstep2 : step < U64) :
    (∀ s : LoopSt, s.wOn = false →
      (sampleStep sine data step phs1 phs2 base s).1.wspr_i = s.wspr_i ∧
      (sampleStep sine data step phs1 phs2 base s).1.wOn = false) ∧
    (∀ s : LoopSt, s.wOn = true → s.wspr_i < WSPR_LEN →
      ((sampleStep sine data step phs1 phs2 base s).1.wOn = false ↔
       (sampleStep sine data step phs1 phs2 base s).1.wspr_i = WSPR_LEN)) ∧
    (∀ n : Nat,
      ((stepN sine data step phs1 phs2 base n ⟨p0, f0, l0, 0, 0, true⟩).wOn = false ↔
        WSPR_LEN ≤ n * step / U64) ∧
      wrapCount sine data step phs1 phs2 base n ⟨p0, f0, l0, 0, 0, true⟩ =
        min WSPR_LEN (n * step / U64)) ∧
    ((stepN sine data step phs1 phs2 base (WSPR_LEN * U64)
        ⟨p0, f0, l0, 0, 0, true⟩).wOn = false ∧
     wrapCount sine data step phs1 phs2 base (WSPR_LEN * U64)
        ⟨p0, f0, l0, 0, 0, true⟩ = WSPR_LEN) := by
  have hUpos : 0 < U64 := by simp only [U64_val]; norm_num
  refine ⟨?_, ?_, ?_, ?_⟩
  · intro s h
    have hidle := sampleStep_idle_fields sine data step phs1 phs2 base s h
    exact ⟨hidle.2.1, hidle.2.2⟩
  · intro s hon hi
    have hchar := sampleStep_active sine data step phs1 phs2 base s hon
    have hmod : (s.wspr_i + 1) % 2 ^ 32 = s.wspr_i + 1 := by
      apply Nat.mod_eq_of_lt
      simp only [WSPR_val] at hi
      have h32 : (2 : Nat) ^ 32 = 4294967296 := by norm_num
      omega
    by_cases hw : (s.symphase + step) % U64 < s.symphase
    · obtain ⟨h1, h2, h3⟩ := hchar.2.1 hw
      by_cases hlt : s.wspr_i + 1 < WSPR_LEN
      · have hT := h2 (by rw [hmod]; exact hlt)
        refine iff_of_false (by rw [hT]; simp) ?_
        rw [h1, hmod]
        simp only [WSPR_val] at *
        omega
      · have hF := h3 (by rw [hmod]; exact hlt)
        refine iff_of_true hF ?_
        rw [h1, hmod]
        simp only [WSPR_val] at *
        omega
    · obtain ⟨h1, h2⟩ := hchar.2.2 hw
      refine iff_of_false (by rw [h2]; simp) ?_
      rw [h1]
      simp only [WSPR_val] at *
      omega
  · intro n
    have hr := run_invariant sine data step phs1 phs2 base
      ⟨p0, f0, l0, 0, 0, true⟩ hstep hstep2 rfl rfl rfl n
    refine ⟨?_, hr.2⟩
    by_cases hq : n * step / U64 < WSPR_LEN
    · obtain ⟨hon, _, _⟩ := hr.1.1 hq
      exact iff_of_false (by rw [hon]; simp) (by omega)
    · push_neg at hq
      exact iff_of_true (hr.1.2 hq).1 hq
  · have hge : WSPR_LEN ≤ WSPR_LEN * U64 * step / U64 := by
      have he : WSPR_LEN * U64 * step = WSPR_LEN * step * U64 := by ring
      rw [he, Nat.mul_div_cancel _ hUpos]
      exact Nat.le_mul_of_pos_right _ hstep
    have hr := run_invariant sine data step phs1 phs2 base
      ⟨p0, f0, l0, 0, 0, true⟩ hstep hstep2 rfl rfl rfl (WSPR_LEN * U64)
    exact ⟨(hr.1.2 hge).1, by rw [hr.2]; exact min_eq_left hge⟩

/-- Closed witness for c1_frame_length at a concrete input. -/
theorem c1_frame_length_witness :
    (0 : Nat) < 1 ∧ (1 : Nat) < U64 ∧
    (sampleStep [] [] 1 0 0 0 ⟨0, 0, 0, 0, 5, false⟩).1.wspr_i = 5 :=
  ⟨by norm_num, by norm_num [U64],
   ((c1_frame_length [] [] 1 0 0 0 0 0 0 (by norm_num) (by norm_num [U64])).1
     ⟨0, 0, 0, 0, 5, false⟩ rfl).1⟩

end FlWspr
